import Mathlib

/-!
Shallow embedding of the go-cubic repository: the WCA-notation move model
(pkg/cube/notation.go), the notation parser, group expansion, and the
coordinate-based cube simulation engine (the cube source file), together
with theorems settling the specification claims.

Machine integers of the Go source are modelled as Lean Int; the Go `%`
and `/` operators truncate toward zero, so they are modelled with
Int.tmod and Int.tdiv.
-/

namespace GoCubic

/-- Errors of the cube package, mirroring the errors.New values in the
notation and cube source files. -/
inductive CubeErr where
  | sliceParam
  deriving DecidableEq, Repr

/-- Errors produced by parsing and expansion in notation.go. -/
inductive ParseErr where
  | unexpectedGroupClosure
  | unclosedGroup
  | tokenExtraction
  | rotationMove
  | slicesMove
  | multipleSeparators
  | separatorGroup
  deriving DecidableEq, Repr

/-- The Move value type of notation.go: slice count, face letter,
wide flag, rotation count and inverted flag. -/
structure Move where
  Slices : Int
  Operator : Char
  Wide : Bool
  Rotations : Int
  Inverted : Bool
  deriving DecidableEq, Repr

/-- The two separator singletons of notation.go, SepConjugate and
SepCommutator, identified by pointer in the Go source. -/
inductive SepKind where
  | conjugate
  | commutator
  deriving DecidableEq, Repr

/-- The GroupType enumeration of notation.go. -/
inductive GroupTy where
  | nil
  | move
  | comm
  deriving DecidableEq, Repr

/-- Move.isAny of notation.go: membership of the Operator in a rune list. -/
def Move.isAny (t : Move) (runes : List Char) : Bool :=
  runes.contains t.Operator

/-- Move.Normalize of notation.go: bare wide moves get Slices=2, the
rotation count is reduced with the Go truncated modulus, 0 becomes 1,
3 becomes 1 with Inverted flipped, and a negative remainder is negated
with Inverted flipped. -/
def Move.Normalize (t : Move) : Move :=
  let t1 := if t.Slices == 0 && t.Wide then { t with Slices := 2 } else t
  let t2 := { t1 with Rotations := Int.tmod t1.Rotations 4 }
  if t2.Rotations == 0 then
    { t2 with Rotations := 1 }
  else if t2.Rotations == 3 then
    { t2 with Rotations := 1, Inverted := !t2.Inverted }
  else if t2.Rotations < 0 then
    { t2 with Rotations := -t2.Rotations, Inverted := !t2.Inverted }
  else
    t2

/-- Move.validate of notation.go. -/
def Move.validate (t : Move) : Option ParseErr :=
  if t.isAny ['x', 'y', 'z'] && (t.Slices > 0 || t.Wide) then
    some .rotationMove
  else if t.Slices != 0 && !t.Wide then
    some .slicesMove
  else
    none

/-- Move.CombineMove of notation.go: merges two compatible moves, returning
none paired with true when they cancel, and (nil, false) when the operator,
slice count or wide flag differ. -/
def Move.CombineMove (t combo : Move) : Option Move × Bool :=
  if t.Operator != combo.Operator || t.Slices != combo.Slices || t.Wide != combo.Wide then
    (none, false)
  else
    let out :=
      if t.Inverted == combo.Inverted then
        { t with Rotations := t.Rotations + combo.Rotations }
      else
        { t with Rotations := t.Rotations - combo.Rotations }
    if Int.tmod out.Rotations 4 == 0 then (none, true)
    else (some out, true)

/-- The reverse helper of helper.go (an in-place swap loop producing the
reversed slice). -/
def reverse {α : Type} (original : List α) : List α :=
  original.reverse

/-- ReverseMoves of notation.go: reverse the sequence and flip the
Inverted flag of every move. -/
def ReverseMoves (moves : List Move) : List Move :=
  (reverse moves).map fun m => { m with Inverted := !m.Inverted }

/-- One step of the NormalizeMoves loop of notation.go: the incoming move
is tested against the last move already placed. -/
def normStep (normalized : List Move) (t : Move) : List Move :=
  match normalized.getLast? with
  | none => [t]
  | some lastMove =>
    match lastMove.CombineMove t with
    | (_, false) => normalized ++ [t]
    | (none, true) => normalized.dropLast
    | (some combined, true) => normalized.dropLast ++ [combined.Normalize]

/-- NormalizeMoves of notation.go. The Go function also returns an error
value that is always nil, so it is modelled as a pure function. -/
def NormalizeMoves (moves : List Move) : List Move :=
  moves.foldl normStep []

/-- isDigit of helper.go. -/
def isDigit (ch : Char) : Bool :=
  decide (Char.ofNat 48 ≤ ch) && decide (ch ≤ Char.ofNat 57)

/-- The digit value of a character, as computed by strToInt of helper.go
on a one-character string visible to the tokenizer, and by the factor
byte arithmetic in the parser. -/
def digitVal (ch : Char) : Int :=
  (ch.toNat : Int) - 48

/-- The face character class of the reToken regular expression. -/
def isFace (ch : Char) : Bool :=
  ['U', 'L', 'F', 'R', 'B', 'D', 'M', 'E', 'S', 'x', 'y', 'z'].contains ch

/-- The prime character, written by code point to keep the source plain. -/
def primeChar : Char := Char.ofNat 39

/-- Reads the optional wide marker, optional rotation digit and optional
prime of the reToken regular expression from the text following the face
letter, returning the wide flag, rotation count, inverted flag and the
number of characters these three optional components consume. Since the
character classes of the regex groups are pairwise disjoint, the greedy
anchored match reads each optional component exactly when present. -/
def tokTail (after : List Char) : Bool × Int × Bool × Nat :=
  let (wide, t2, n2) :=
    match after with
    | c :: t => if c == 'w' then (true, t, (1 : Nat)) else (false, after, 0)
    | [] => (false, after, 0)
  let (rot, t3, n3) :=
    match t2 with
    | c :: t => if isDigit c then (digitVal c, t, (1 : Nat)) else ((0 : Int), t2, 0)
    | [] => ((0 : Int), t2, 0)
  let inv :=
    match t3 with
    | c :: _ => c == primeChar
    | [] => false
  (wide, rot, inv, n2 + n3 + (if inv then 1 else 0))

/-- The reToken regular expression match of notation.go: an optional slice
digit, a mandatory face letter, then the optional trailing components.
Returns the raw move together with the number of characters consumed
excluding the optional boundary character (the Go code subtracts the end
group from the match length). The match fails exactly when the text starts
neither with a face letter nor with a digit followed by a face letter. -/
def matchTok (s : List Char) : Option (Move × Nat) :=
  match s with
  | [] => none
  | c :: rest =>
    if isFace c then
      let (wide, rot, inv, k) := tokTail rest
      some (⟨0, c, wide, rot, inv⟩, 1 + k)
    else if isDigit c then
      match rest with
      | f :: rest2 =>
        if isFace f then
          let (wide, rot, inv, k) := tokTail rest2
          some (⟨digitVal c, f, wide, rot, inv⟩, 2 + k)
        else none
      | [] => none
    else none

/-- extractToken of notation.go: regex match, then Normalize, then
validate; a failed match is the TokenExtraction error, and a validation
failure is returned as the error the parser propagates. -/
def extractToken (s : List Char) : Except ParseErr (Move × Nat) :=
  match matchTok s with
  | none => .error .tokenExtraction
  | some (m, len) =>
    let t := m.Normalize
    match t.validate with
    | some e => .error e
    | none => .ok (t, len)

/-- Tokenizable tree node of notation.go: a move, a separator, or a
nested group carrying its token list, factor and group type. -/
inductive Token where
  | move (m : Move)
  | sep (s : SepKind)
  | group (tokens : List Token) (factor : Int) (groupType : GroupTy)

/-- The Group struct of notation.go. -/
structure Group where
  Tokens : List Token
  Factor : Int
  Gtype : GroupTy

/-- NewGroup of notation.go: empty token list and factor 1. -/
def NewGroup (gt : GroupTy) : Group :=
  ⟨[], 1, gt⟩

/-- Group.AddToken of notation.go. -/
def Group.AddToken (g : Group) (t : Token) : Group :=
  { g with Tokens := g.Tokens ++ [t] }

/-- Wraps a finished parser group as a child token of its parent. -/
def Group.toToken (g : Group) : Token :=
  .group g.Tokens g.Factor g.Gtype

/-- The scanning loop of ParseNotation in notation.go, on the remaining
input, the explicit stack of in-progress groups, and the current group.
Spaces are skipped; an opening delimiter pushes the current group and
starts a new one; a closing delimiter pops (an empty stack is the
UnexpectedGroupClosure error) and optionally consumes one digit as the
finished group factor; separators append a separator token; anything else
goes through extractToken, which consumes its match length. -/
def parseLoop (input : List Char) (stack : List Group) (cur : Group) :
    Except ParseErr Group :=
  match input with
  | [] => if stack.isEmpty then .ok cur else .error .unclosedGroup
  | c :: rest =>
    if c == ' ' then
      parseLoop rest stack cur
    else if c == '(' then
      parseLoop rest (cur :: stack) (NewGroup .move)
    else if c == '[' then
      parseLoop rest (cur :: stack) (NewGroup .comm)
    else if c == ')' || c == ']' then
      match stack with
      | [] => .error .unexpectedGroupClosure
      | parent :: stack2 =>
        match rest with
        | d :: rest2 =>
          if isDigit d then
            parseLoop rest2 stack2
              (parent.AddToken (Group.toToken { cur with Factor := digitVal d }))
          else
            parseLoop (d :: rest2) stack2 (parent.AddToken cur.toToken)
        | [] => parseLoop [] stack2 (parent.AddToken cur.toToken)
    else if c == ':' then
      parseLoop rest stack (cur.AddToken (.sep .conjugate))
    else if c == ',' then
      parseLoop rest stack (cur.AddToken (.sep .commutator))
    else
      match extractToken (c :: rest) with
      | .error e => .error e
      | .ok (m, len) => parseLoop (rest.drop (len - 1)) stack (cur.AddToken (.move m))
termination_by input.length
decreasing_by
  all_goals simp_wf
  all_goals omega

/-- ParseNotation of notation.go: scan the whole input starting from the
synthetic root group; a non-empty stack at the end is the UnclosedGroup
error. -/
def ParseNotation (input : List Char) : Except ParseErr Group :=
  parseLoop input [] (NewGroup .nil)

mutual

/-- The child-processing loop of Group.Expand in notation.go: moves and
expanded subgroups are appended to the head list, or to the tail list once
a separator has been seen; a second separator is the MultipleSeparators
error. -/
def expandTokens (l : List Token) (head tail : List Move) (sep : Option SepKind) :
    Except ParseErr (List Move × List Move × Option SepKind) :=
  match l with
  | [] => .ok (head, tail, sep)
  | .move m :: ts =>
    match sep with
    | none => expandTokens ts (head ++ [m]) tail sep
    | some _ => expandTokens ts head (tail ++ [m]) sep
  | .sep s :: ts =>
    match sep with
    | some _ => .error .multipleSeparators
    | none => expandTokens ts head tail (some s)
  | .group g f ty :: ts =>
    match expandGroup g f ty with
    | .error e => .error e
    | .ok ms =>
      match sep with
      | none => expandTokens ts (head ++ ms) tail sep
      | some _ => expandTokens ts head (tail ++ ms) sep
termination_by (sizeOf l, 0)
decreasing_by
  all_goals simp_wf
  all_goals first
    | (apply Prod.Lex.left; simp_arith; done)
    | (apply Prod.Lex.right; omega)

/-- Group.Expand of notation.go on the fields of a group: after the child
loop, result is head then tail; a separator outside a commutator-type
group is the SeparatorGroup error; a conjugate separator appends the
reverse-inverted head, a commutator separator appends the reverse-inverted
head then the reverse-inverted tail; a factor above one repeats the
sequence; the result is passed through NormalizeMoves. -/
def expandGroup (tokens : List Token) (factor : Int) (gty : GroupTy) :
    Except ParseErr (List Move) :=
  match expandTokens tokens [] [] none with
  | .error e => .error e
  | .ok (head, tail, sep) =>
    let res := head ++ tail
    if sep.isSome && gty != GroupTy.comm then .error .separatorGroup
    else
      let res2 :=
        match sep with
        | some .conjugate => res ++ ReverseMoves head
        | some .commutator => res ++ ReverseMoves head ++ ReverseMoves tail
        | none => res
      let out := if factor > 1 then (List.replicate factor.toNat res2).flatten else res2
      .ok (NormalizeMoves out)
termination_by (sizeOf tokens, 1)
decreasing_by
  all_goals simp_wf
  all_goals first
    | (apply Prod.Lex.left; simp_arith; done)
    | (apply Prod.Lex.right; omega)

end

/-- Group.Expand of notation.go. -/
def Group.Expand (g : Group) : Except ParseErr (List Move) :=
  expandGroup g.Tokens g.Factor g.Gtype

/-- The tile struct of the cube engine: a mutable coordinate, the
construction-time coordinate, and a color rune. -/
structure Tile where
  coordinate : Int
  coordinateStart : Int
  color : Char
  deriving DecidableEq, Repr

/-- The piece struct of the cube engine: one tile per axis. -/
structure Piece where
  x : Tile
  y : Tile
  z : Tile
  deriving DecidableEq, Repr

/-- The tiles of a piece; the struct holds exactly one tile per axis. -/
def Piece.tiles (p : Piece) : List Tile :=
  [p.x, p.y, p.z]

/-- The axis enumeration of the cube engine. -/
inductive Axis where
  | x
  | y
  | z
  deriving DecidableEq, Repr

/-- The turn descriptor struct of the cube engine. -/
structure Turn where
  axis : Axis
  layerMin : Int
  layerMax : Int
  rotations : Int
  clockwise : Bool
  deriving DecidableEq, Repr

/-- The Cube struct of the cube engine: the maximal coordinate and the
piece collection. -/
structure Cube where
  max : Int
  pieces : List Piece
  deriving DecidableEq, Repr

/-- Cube.Dimension of the cube engine. -/
def Cube.Dimension (c : Cube) : Int :=
  c.max + 1

/-- One iteration of the loop body of turnAxis in the cube engine: with
direction true the pair of coordinates becomes (max - second, first),
otherwise (second, max - first), and the two colors are swapped. -/
def turnAxisStep (max : Int) (direction : Bool) (t1 t2 : Tile) : Tile × Tile :=
  if direction then
    ({ t1 with coordinate := max - t2.coordinate, color := t2.color },
     { t2 with coordinate := t1.coordinate, color := t1.color })
  else
    ({ t1 with coordinate := t2.coordinate, color := t2.color },
     { t2 with coordinate := max - t1.coordinate, color := t1.color })

/-- turnAxis of the cube engine: the step body applied rotations times.
A Go range loop over a non-positive int runs zero times, hence the
Nat iteration count obtained with Int.toNat. -/
def turnAxisIter (max : Int) (direction : Bool) : Nat → Tile × Tile → Tile × Tile
  | 0, p => p
  | n + 1, (t1, t2) => turnAxisIter max direction n (turnAxisStep max direction t1 t2)

/-- Cube.turn of the cube engine: every piece whose coordinate along the
turn axis lies in the inclusive layer range has its two perpendicular
tiles rotated by turnAxis; all other pieces are untouched. -/
def Cube.turn (c : Cube) (t : Turn) : Cube :=
  { c with
    pieces := c.pieces.map fun p =>
      match t.axis with
      | .x =>
        if t.layerMin ≤ p.x.coordinate ∧ p.x.coordinate ≤ t.layerMax then
          let (y2, z2) := turnAxisIter c.max t.clockwise t.rotations.toNat (p.y, p.z)
          { p with y := y2, z := z2 }
        else p
      | .y =>
        if t.layerMin ≤ p.y.coordinate ∧ p.y.coordinate ≤ t.layerMax then
          let (x2, z2) := turnAxisIter c.max t.clockwise t.rotations.toNat (p.x, p.z)
          { p with x := x2, z := z2 }
        else p
      | .z =>
        if t.layerMin ≤ p.z.coordinate ∧ p.z.coordinate ≤ t.layerMax then
          let (x2, y2) := turnAxisIter c.max t.clockwise t.rotations.toNat (p.x, p.y)
          { p with x := x2, y := y2 }
        else p }

/-- Cube.ExecuteMove of the cube engine. The Go method mutates the
receiver in place and returns an error value, so it is modelled as
returning the updated cube together with the optional error; the
SliceParam check happens before any mutation. -/
def Cube.ExecuteMove (c : Cube) (move : Move) : Cube × Option CubeErr :=
  let layerMin : Int := c.max
  let layerMax : Int := c.max
  let layerMin := if move.Wide then layerMin - (move.Slices - 1) else layerMin
  if layerMin < 0 then
    (c, some .sliceParam)
  else
    let (layerMin, layerMax) :=
      if move.isAny ['L', 'B', 'D', 'E'] then (c.max - layerMax, c.max - layerMin)
      else if move.isAny ['x', 'y', 'z'] then ((0 : Int), c.max)
      else (layerMin, layerMax)
    let clockwise := !move.Inverted
    let clockwise := if move.isAny ['R', 'F', 'D', 'E', 'S', 'x', 'z'] then !clockwise else clockwise
    let axis :=
      if move.isAny ['F', 'B', 'S', 'z'] then Axis.z
      else if move.isAny ['U', 'D', 'E', 'y'] then Axis.y
      else Axis.x
    if move.isAny ['M', 'E', 'S'] then
      if Int.tmod c.max 2 == 1 then (c, none)
      else
        let mid := Int.tdiv c.max 2
        (c.turn ⟨axis, mid, mid, move.Rotations, clockwise⟩, none)
    else
      (c.turn ⟨axis, layerMin, layerMax, move.Rotations, clockwise⟩, none)

/-- Cube.ExecuteMoves of the cube engine: the moves are applied in order
through ExecuteMove, and the per-move error result is never inspected, so
the sequence continues past a failing move; the (single, mutated) cube is
the result. -/
def Cube.ExecuteMoves (c : Cube) (moves : List Move) : Cube :=
  moves.foldl (fun cc m => (cc.ExecuteMove m).1) c

/-- pow of helper.go: repeated multiplication, with a Go range loop that
runs zero times on a non-positive exponent. -/
def pow (v : Int) (exp : Int) : Int :=
  (List.range exp.toNat).foldl (fun x _ => x * v) 1

/-- colorize of newPiece in the cube engine: the low endpoint gets the
first color, the high endpoint the second, every inner coordinate the
zero rune. -/
def colorize (max coord : Int) (c0 cMax : Char) : Char :=
  if coord == 0 then c0
  else if coord == max then cMax
  else Char.ofNat 0

/-- newTile of the cube engine. -/
def newTile (coord : Int) (color : Char) : Tile :=
  ⟨coord, coord, color⟩

/-- newPiece of the cube engine with its fixed face colors. -/
def newPiece (max x y z : Int) : Piece :=
  ⟨newTile x (colorize max x 'o' 'r'),
   newTile y (colorize max y 'y' 'w'),
   newTile z (colorize max z 'b' 'g')⟩

/-- isInner of NewCube in the cube engine: a position list is inner when
no entry equals 0 or max. -/
def isInner (max : Int) (pos : List Int) : Bool :=
  pos.all fun p => !(p == 0 || p == max)

/-- NewCube of the cube engine: one piece for every lattice point of the
triple loop that is not inner, appended in x, y, z nesting order. -/
def NewCube (size : Int) : Cube :=
  let max := size - 1
  let pieces :=
    (List.range size.toNat).flatMap fun x : Nat =>
      (List.range size.toNat).flatMap fun y : Nat =>
        ((List.range size.toNat).filter fun z : Nat =>
            !isInner max [(x : Int), (y : Int), (z : Int)]).map fun z : Nat =>
          newPiece max (x : Int) (y : Int) (z : Int)
  { max := max, pieces := pieces }

/-! ### Helper lemmas -/

/-- The truncated remainder by 4 lies strictly between -4 and 4. -/
lemma tmod_four_bounds (a : Int) : -4 < Int.tmod a 4 ∧ Int.tmod a 4 < 4 := by
  cases a with
  | ofNat m =>
    simp [Int.tmod]
    constructor <;> omega
  | negSucc m =>
    simp [Int.tmod]
    constructor <;> omega

/-- ExecuteMove only reports an error on the early SliceParam return,
before the turn mutation, so an erroring call leaves the cube unchanged. -/
lemma executeMove_fst_of_error (c : Cube) (m : Move)
    (h : (c.ExecuteMove m).2.isSome = true) : (c.ExecuteMove m).1 = c := by
  simp only [Cube.ExecuteMove] at h ⊢
  repeat' split at h
  all_goals simp_all

/-- turn never changes the stored maximal coordinate. -/
@[simp] lemma turn_max (c : Cube) (t : Turn) : (c.turn t).max = c.max := rfl

/-- Executing the R quarter-turn move either fails on a negative maximal
coordinate or turns the outermost x layer counterclockwise once. -/
lemma executeMove_R (c : Cube) :
    (c.ExecuteMove ⟨0, 'R', false, 1, false⟩).1 =
      if c.max < 0 then c else c.turn ⟨Axis.x, c.max, c.max, 1, false⟩ := by
  simp [Cube.ExecuteMove, Move.isAny]
  split <;> rfl

/-- Four applications of the single-layer counterclockwise x turn of the
outermost layer restore every piece. -/
lemma turnR_four (mx : Int) (pieces : List Piece) :
    (((((Cube.mk mx pieces).turn ⟨.x, mx, mx, 1, false⟩).turn ⟨.x, mx, mx, 1, false⟩).turn
        ⟨.x, mx, mx, 1, false⟩).turn ⟨.x, mx, mx, 1, false⟩) = Cube.mk mx pieces := by
  simp only [Cube.turn, List.map_map]
  congr 1
  induction pieces with
  | nil => rfl
  | cons p t ih =>
    simp only [List.map_cons]
    rw [ih]
    congr 1
    simp only [Function.comp]
    obtain ⟨⟨a, sa, ca⟩, ⟨b, sb, cb⟩, ⟨d, sd, cd⟩⟩ := p
    by_cases hin : mx ≤ a ∧ a ≤ mx
    · simp [hin, turnAxisIter, turnAxisStep]
    · simp [hin]

/-- The cube coordinate invariant, as a decidable check: every tile
coordinate of every piece lies in the inclusive range from 0 to max. -/
def Cube.invB (c : Cube) : Bool :=
  c.pieces.all fun p =>
    decide (0 ≤ p.x.coordinate) && decide (p.x.coordinate ≤ c.max) &&
    (decide (0 ≤ p.y.coordinate) && decide (p.y.coordinate ≤ c.max)) &&
    (decide (0 ≤ p.z.coordinate) && decide (p.z.coordinate ≤ c.max))

/-- Every iteration of the rotation loop keeps both tile coordinates
inside the range 0..max. -/
lemma turnAxisIter_bounds (max : Int) (dir : Bool) (n : Nat) :
    ∀ t1 t2 : Tile,
      0 ≤ t1.coordinate → t1.coordinate ≤ max →
      0 ≤ t2.coordinate → t2.coordinate ≤ max →
      (0 ≤ (turnAxisIter max dir n (t1, t2)).1.coordinate ∧
        (turnAxisIter max dir n (t1, t2)).1.coordinate ≤ max) ∧
      (0 ≤ (turnAxisIter max dir n (t1, t2)).2.coordinate ∧
        (turnAxisIter max dir n (t1, t2)).2.coordinate ≤ max) := by
  induction n with
  | zero => intro t1 t2 h1 h2 h3 h4; exact ⟨⟨h1, h2⟩, ⟨h3, h4⟩⟩
  | succ k ih =>
    intro t1 t2 h1 h2 h3 h4
    have hred : turnAxisIter max dir (k + 1) (t1, t2) =
        turnAxisIter max dir k (turnAxisStep max dir t1 t2) := rfl
    rw [hred]
    cases dir
    · have hk := ih { t1 with coordinate := t2.coordinate, color := t2.color }
        { t2 with coordinate := max - t1.coordinate, color := t1.color }
        h3 h4 (show (0 : Int) ≤ max - t1.coordinate by omega)
        (show max - t1.coordinate ≤ max by omega)
      simpa [turnAxisStep] using hk
    · have hk := ih { t1 with coordinate := max - t2.coordinate, color := t2.color }
        { t2 with coordinate := t1.coordinate, color := t1.color }
        (show (0 : Int) ≤ max - t2.coordinate by omega)
        (show max - t2.coordinate ≤ max by omega) h1 h2
      simpa [turnAxisStep] using hk

/-- turn preserves the coordinate invariant for every turn descriptor. -/
lemma turn_invB (c : Cube) (t : Turn) (h : c.invB = true) : (c.turn t).invB = true := by
  simp only [Cube.invB, Cube.turn, List.all_eq_true, List.mem_map, turn_max] at h ⊢
  rintro b ⟨p, hp, rfl⟩
  have hpb := h p hp
  simp only [Bool.and_eq_true, decide_eq_true_eq] at hpb
  obtain ⟨⟨⟨hx0, hx1⟩, hy0, hy1⟩, hz0, hz1⟩ := hpb
  split
  · split
    · have hb := turnAxisIter_bounds c.max t.clockwise t.rotations.toNat
        p.y p.z hy0 hy1 hz0 hz1
      simp only [Bool.and_eq_true, decide_eq_true_eq]
      exact ⟨⟨⟨hx0, hx1⟩, hb.1⟩, hb.2⟩
    · simp only [Bool.and_eq_true, decide_eq_true_eq]
      exact ⟨⟨⟨hx0, hx1⟩, hy0, hy1⟩, hz0, hz1⟩
  · split
    · have hb := turnAxisIter_bounds c.max t.clockwise t.rotations.toNat
        p.x p.z hx0 hx1 hz0 hz1
      simp only [Bool.and_eq_true, decide_eq_true_eq]
      exact ⟨⟨hb.1, hy0, hy1⟩, hb.2⟩
    · simp only [Bool.and_eq_true, decide_eq_true_eq]
      exact ⟨⟨⟨hx0, hx1⟩, hy0, hy1⟩, hz0, hz1⟩
  · split
    · have hb := turnAxisIter_bounds c.max t.clockwise t.rotations.toNat
        p.x p.y hx0 hx1 hy0 hy1
      simp only [Bool.and_eq_true, decide_eq_true_eq]
      exact ⟨⟨hb.1, hb.2⟩, hz0, hz1⟩
    · simp only [Bool.and_eq_true, decide_eq_true_eq]
      exact ⟨⟨⟨hx0, hx1⟩, hy0, hy1⟩, hz0, hz1⟩

/-- ExecuteMove preserves the coordinate invariant: every branch either
returns the cube unchanged or applies turn. -/
lemma executeMove_invB (c : Cube) (m : Move) (h : c.invB = true) :
    ((c.ExecuteMove m).1).invB = true := by
  simp only [Cube.ExecuteMove]
  repeat' split
  all_goals first | exact h | exact turn_invB _ _ h

/-- ExecuteMove preserves the stored maximal coordinate. -/
lemma executeMove_max (c : Cube) (m : Move) : ((c.ExecuteMove m).1).max = c.max := by
  simp only [Cube.ExecuteMove]
  repeat' split
  all_goals rfl

/-- ExecuteMoves preserves the coordinate invariant. -/
lemma executeMoves_invB (c : Cube) (ms : List Move) (h : c.invB = true) :
    (c.ExecuteMoves ms).invB = true := by
  induction ms generalizing c with
  | nil => exact h
  | cons m t ih => exact ih _ (executeMove_invB c m h)

/-- ExecuteMoves preserves the stored maximal coordinate. -/
lemma executeMoves_max (c : Cube) (ms : List Move) : (c.ExecuteMoves ms).max = c.max := by
  induction ms generalizing c with
  | nil => rfl
  | cons m t ih => exact (ih _).trans (executeMove_max c m)

/-- A freshly built cube satisfies the coordinate invariant. -/
lemma newCube_invB (size : Int) : (NewCube size).invB = true := by
  simp only [NewCube, Cube.invB, List.all_eq_true, List.mem_flatMap, List.mem_map,
    List.mem_filter, List.mem_range]
  rintro b ⟨x, hx, y, hy, z, ⟨hz, hfil⟩, rfl⟩
  simp only [newPiece, newTile, Bool.and_eq_true, decide_eq_true_eq]
  refine ⟨⟨⟨?_, ?_⟩, ?_, ?_⟩, ?_, ?_⟩ <;> omega

/-! ### Claim C1 -/

/-- C1: for every cube created by NewCube with N at least 1 and every
move sequence applied through ExecuteMove and ExecuteMoves, every tile
coordinate stays within the range 0..N-1 and every piece retains exactly
3 tiles. -/
theorem claim_C1_closure_invariant (N : Int) (hN : 1 ≤ N) (moves : List Move) :
    ∀ p ∈ ((NewCube N).ExecuteMoves moves).pieces,
      (∀ t ∈ p.tiles, 0 ≤ t.coordinate ∧ t.coordinate ≤ N - 1) ∧
      p.tiles.length = 3 := by
  have hinv := executeMoves_invB (NewCube N) moves (newCube_invB N)
  have hmax : ((NewCube N).ExecuteMoves moves).max = N - 1 :=
    executeMoves_max (NewCube N) moves
  simp only [Cube.invB, List.all_eq_true, Bool.and_eq_true, decide_eq_true_eq, hmax] at hinv
  intro p hp
  refine ⟨?_, rfl⟩
  intro t ht
  obtain ⟨⟨⟨hx0, hx1⟩, hy0, hy1⟩, hz0, hz1⟩ := hinv p hp
  simp only [Piece.tiles, List.mem_cons, List.mem_singleton] at ht
  rcases ht with rfl | rfl | rfl | hfalse
  · exact ⟨hx0, hx1⟩
  · exact ⟨hy0, hy1⟩
  · exact ⟨hz0, hz1⟩
  · cases hfalse

/-- Witness for C1 at a 2-cube and a single R move. -/
theorem claim_C1_witness :
    (1 : Int) ≤ 2 ∧
    ∀ p ∈ ((NewCube 2).ExecuteMoves [⟨0, 'R', false, 1, false⟩]).pieces,
      (∀ t ∈ p.tiles, 0 ≤ t.coordinate ∧ t.coordinate ≤ 2 - 1) ∧
      p.tiles.length = 3 :=
  ⟨by norm_num, claim_C1_closure_invariant 2 (by norm_num) [⟨0, 'R', false, 1, false⟩]⟩

/-! ### Claim C2 -/

/-- C2: applying the move sequence R R R R (four identical clockwise
quarter-turns of the R face) to any cube of any size returns the cube to
the exact tile-coordinate and tile-color state it had before. -/
theorem claim_C2_RRRR_identity (c : Cube) :
    c.ExecuteMoves [⟨0, 'R', false, 1, false⟩, ⟨0, 'R', false, 1, false⟩,
      ⟨0, 'R', false, 1, false⟩, ⟨0, 'R', false, 1, false⟩] = c := by
  obtain ⟨mx, pieces⟩ := c
  by_cases hm : mx < 0
  · simp [Cube.ExecuteMoves, executeMove_R, hm]
  · simp [Cube.ExecuteMoves, executeMove_R, hm, turnR_four]

/-! ### Claim C3 -/

/-- Parsing followed by expansion, the composition the spec example uses. -/
def parseExpand (input : List Char) : Except ParseErr (List Move) :=
  match ParseNotation input with
  | .error e => .error e
  | .ok g => g.Expand

/-- The example input text of the spec, as characters: an opening
parenthesis, R, space, L, 2, space, U, prime, closing parenthesis, 2. -/
def c3Input : List Char :=
  ['(', 'R', ' ', 'L', '2', ' ', 'U', primeChar, ')', '2']

/-- C3 counterexample: the example input does not expand to the
four-move sequence R, U inverted, R, U inverted that the claim states. -/
theorem claim_C3_counterexample :
    parseExpand c3Input ≠
      .ok [⟨0, 'R', false, 1, false⟩, ⟨0, 'U', false, 1, true⟩,
           ⟨0, 'R', false, 1, false⟩, ⟨0, 'U', false, 1, true⟩] := by
  simp +decide [parseExpand, c3Input, ParseNotation, parseLoop, extractToken, matchTok, tokTail,
    Group.Expand, expandGroup, expandTokens, NormalizeMoves, normStep, Move.Normalize,
    Move.CombineMove, Move.validate, Move.isAny, NewGroup, Group.AddToken, Group.toToken,
    isFace, isDigit, digitVal, primeChar, ReverseMoves, reverse]

/-- C3 amended: the example input parses and expands to the six moves
R, L2, U inverted, R, L2, U inverted. L2 is a single move with rotation
count 2, the two L2 occurrences are never adjacent, and normalization
combines only adjacent moves of the same face, so nothing cancels. -/
theorem claim_C3_parse_expand :
    parseExpand c3Input =
      .ok [⟨0, 'R', false, 1, false⟩, ⟨0, 'L', false, 2, false⟩, ⟨0, 'U', false, 1, true⟩,
           ⟨0, 'R', false, 1, false⟩, ⟨0, 'L', false, 2, false⟩, ⟨0, 'U', false, 1, true⟩] := by
  simp +decide [parseExpand, c3Input, ParseNotation, parseLoop, extractToken, matchTok, tokTail,
    Group.Expand, expandGroup, expandTokens, NormalizeMoves, normStep, Move.Normalize,
    Move.CombineMove, Move.validate, Move.isAny, NewGroup, Group.AddToken, Group.toToken,
    isFace, isDigit, digitVal, primeChar, ReverseMoves, reverse]

/-! ### Claim C8 -/

/-- The boundary character class the claim names: space, closing bracket,
closing parenthesis, comma, colon. -/
def isBoundary (ch : Char) : Bool :=
  [' ', ']', ')', ',', ':'].contains ch

/-- Token grammar as the claim words it (refinement reference, stated
from the claim text rather than from the code): an optional leading slice
digit, a mandatory face letter, optional w, optional rotation digit,
optional prime, and then termination by a boundary character or end of
input. The code differs: its end group is optional, so this definition
exists only to be compared with the code tokenizer. -/
def specTokenMatch (s : List Char) : Bool :=
  let s1 :=
    match s with
    | c :: t => if isDigit c then t else s
    | [] => s
  match s1 with
  | [] => false
  | f :: t1 =>
    isFace f &&
      (let t2 := match t1 with | c :: t => if c == 'w' then t else t1 | [] => t1
       let t3 := match t2 with | c :: t => if isDigit c then t else t2 | [] => t2
       let t4 := match t3 with | c :: t => if c == primeChar then t else t3 | [] => t3
       match t4 with
       | [] => true
       | b :: _ => isBoundary b)

/-- C8 counterexample: at scan position 0 the input R R (with no
separating boundary) fails the grammar exactly as the claim states it,
yet ParseNotation succeeds with two R moves instead of returning the
TokenExtraction error, because the terminating boundary character of the
real tokenizer is optional. -/
theorem claim_C8_counterexample :
    specTokenMatch ['R', 'R'] = false ∧
    ParseNotation ['R', 'R'] =
      .ok ⟨[.move ⟨0, 'R', false, 1, false⟩, .move ⟨0, 'R', false, 1, false⟩], 1, .nil⟩ := by
  constructor
  · decide
  · simp +decide [ParseNotation, parseLoop, extractToken, matchTok, tokTail,
      Move.Normalize, Move.validate, Move.isAny, NewGroup, Group.AddToken, Group.toToken,
      isFace, isDigit, digitVal, primeChar]

/-- C8 amended: the scanning loop returns the TokenExtraction error
whenever the character at the current scan position is not a space,
delimiter or separator, and the text there fails the terminator-free
token grammar: it neither starts with a face letter nor with a digit
followed by a face letter. The boundary character of the grammar is
optional, so a token not followed by a boundary simply ends and scanning
continues at the next character. -/
theorem claim_C8_token_extraction (stack : List Group) (cur : Group)
    (c : Char) (rest : List Char)
    (hsp : c ≠ ' ') (hop : c ≠ '(') (hob : c ≠ '[')
    (hcp : c ≠ ')') (hcb : c ≠ ']') (hco : c ≠ ':') (hcm : c ≠ ',')
    (hface : isFace c = false)
    (hdig : isDigit c = true → ∀ d, rest.head? = some d → isFace d = false) :
    parseLoop (c :: rest) stack cur = .error .tokenExtraction := by
  have hm : matchTok (c :: rest) = none := by
    by_cases hdc : isDigit c = true
    · cases rest with
      | nil => simp [matchTok, hface]
      | cons d t =>
        have hd := hdig hdc d rfl
        simp [matchTok, hface, hd]
    · have hdc2 : isDigit c = false := Bool.eq_false_iff.mpr hdc
      cases rest with
      | nil => simp [matchTok, hface]
      | cons d t => simp [matchTok, hface, hdc2]
  rw [parseLoop.eq_def]
  simp [extractToken, hm, hsp, hop, hob, hcp, hcb, hco, hcm]

/-- Witness for C8 at the input q R: the scan character q is neither a
face letter nor a digit, so the error is returned even though the next
character is a face letter. -/
theorem claim_C8_witness :
    isFace 'q' = false ∧ isDigit 'q' = false ∧
    parseLoop ['q', 'R'] [] (NewGroup .nil) = .error .tokenExtraction :=
  ⟨by decide, by decide,
   claim_C8_token_extraction [] (NewGroup .nil) 'q' ['R'] (by decide) (by decide)
     (by decide) (by decide) (by decide) (by decide) (by decide) (by decide)
     (fun h _ _ => absurd h (by decide))⟩

/-! ### Claim C4 -/

/-- Splitting a list by a predicate preserves total length. -/
lemma length_filter_add {α : Type} (l : List α) (p : α → Bool) :
    (l.filter p).length + (l.filter fun a => !p a).length = l.length := by
  induction l with
  | nil => rfl
  | cons a t ih => by_cases h : p a = true <;> simp [h] <;> omega

/-- Summing a two-valued map equals counting each side of the split. -/
lemma sum_map_ite {α : Type} (l : List α) (p : α → Bool) (v1 v2 : Nat) :
    (l.map fun a => if p a then v1 else v2).sum =
      (l.filter p).length * v1 + (l.filter fun a => !p a).length * v2 := by
  induction l with
  | nil => simp
  | cons a t ih => by_cases h : p a = true <;> simp [h, ih] <;> ring

/-- Only the first element of an initial range satisfies equality with 0. -/
lemma filter_range_eq_zero (m : Nat) :
    ((List.range (m + 1)).filter fun v => v == 0).length = 1 := by
  induction m with
  | zero => rfl
  | succ k ih =>
    rw [List.range_succ, List.filter_append]
    simpa using ih

/-- In the range below n with n at least 2, exactly the two endpoints 0
and n-1 satisfy the endpoint test. -/
lemma filter_range_endpoints (n : Nat) (hn : 2 ≤ n) :
    ((List.range n).filter fun v => v == 0 || v == n - 1).length = 2 := by
  obtain ⟨m, rfl⟩ : ∃ m, n = m + 2 := ⟨n - 2, by omega⟩
  rw [List.range_succ, List.filter_append]
  have h1 : (List.range (m + 1)).filter (fun v => v == 0 || v == m + 2 - 1) =
      (List.range (m + 1)).filter fun v => v == 0 := by
    apply List.filter_congr
    intro v hv
    have hv2 : v < m + 1 := List.mem_range.mp hv
    have hne : (v == m + 1) = false := by
      simp only [beq_eq_false_iff_ne]
      omega
    simp [hne]
  rw [h1]
  have h2 := filter_range_eq_zero m
  simp only [List.length_append, h2]
  simp

/-- One z row of the NewCube triple loop keeps every z when x or y is
already on the shell, and exactly the two endpoint z values otherwise. -/
lemma newCube_row_length (size : Int) (hs : 2 ≤ size) (x y : Nat) :
    ((List.range size.toNat).filter fun z : Nat =>
        !isInner (size - 1) [(x : Int), (y : Int), (z : Int)]).length =
      if (!((x : Int) == 0 || (x : Int) == size - 1)) &&
         (!((y : Int) == 0 || (y : Int) == size - 1)) then 2 else size.toNat := by
  by_cases hxy : ((!((x : Int) == 0 || (x : Int) == size - 1)) &&
      (!((y : Int) == 0 || (y : Int) == size - 1))) = true
  · rw [if_pos hxy]
    simp only [Bool.and_eq_true] at hxy
    obtain ⟨hxA, hyA⟩ := hxy
    have hcon : ∀ z ∈ List.range size.toNat,
        (!isInner (size - 1) [(x : Int), (y : Int), (z : Int)]) =
          ((z : Int) == 0 || (z : Int) == size - 1) := by
      intro z hz
      simp only [isInner, List.all_cons, List.all_nil, Bool.and_true, hxA, hyA,
        Bool.true_and, Bool.not_not]
    rw [List.filter_congr hcon]
    have hcon2 : ∀ z ∈ List.range size.toNat,
        ((z : Int) == 0 || (z : Int) == size - 1) = (z == 0 || z == size.toNat - 1) := by
      intro z hz
      have hz2 := List.mem_range.mp hz
      apply Bool.eq_iff_iff.mpr
      simp only [Bool.or_eq_true, beq_iff_eq]
      omega
    rw [List.filter_congr hcon2]
    exact filter_range_endpoints size.toNat (by omega)
  · rw [if_neg hxy]
    have hfalse : ((!((x : Int) == 0 || (x : Int) == size - 1)) &&
        (!((y : Int) == 0 || (y : Int) == size - 1))) = false :=
      Bool.eq_false_iff.mpr hxy
    have hcon : ∀ z ∈ List.range size.toNat,
        (!isInner (size - 1) [(x : Int), (y : Int), (z : Int)]) = true := by
      intro z hz
      simp only [isInner, List.all_cons, List.all_nil, Bool.and_true]
      rcases Bool.and_eq_false_iff.mp hfalse with h | h <;> simp [h]
    rw [List.filter_congr hcon]
    simp

/-- Exactly two values of the range hit an endpoint of the coordinate
interval. -/
lemma lenNotA_int (size : Int) (hs : 2 ≤ size) :
    ((List.range size.toNat).filter fun v : Nat =>
        ((v : Int) == 0 || (v : Int) == size - 1)).length = 2 := by
  have hcon : ∀ v ∈ List.range size.toNat,
      ((v : Int) == 0 || (v : Int) == size - 1) = (v == 0 || v == size.toNat - 1) := by
    intro v hv
    have hv2 := List.mem_range.mp hv
    apply Bool.eq_iff_iff.mpr
    simp only [Bool.or_eq_true, beq_iff_eq]
    omega
  rw [List.filter_congr hcon]
  exact filter_range_endpoints size.toNat (by omega)

/-- All values of the range except the two endpoints avoid both
endpoints. -/
lemma lenA_int (size : Int) (hs : 2 ≤ size) :
    ((List.range size.toNat).filter fun v : Nat =>
        !((v : Int) == 0 || (v : Int) == size - 1)).length = size.toNat - 2 := by
  have h := length_filter_add (List.range size.toNat)
    (fun v : Nat => ((v : Int) == 0 || (v : Int) == size - 1))
  have h2 := lenNotA_int size hs
  have h3 : (List.range size.toNat).length = size.toNat := List.length_range _
  omega

/-- The y and z double loop of NewCube produces, for a fixed x, either
4(size-1) pieces when x avoids the shell endpoints, or a full size
squared slab when x sits on the shell. -/
lemma newCube_mid_length (size : Int) (hs : 2 ≤ size) (x : Nat) :
    (((List.range size.toNat).flatMap fun y : Nat =>
        ((List.range size.toNat).filter fun z : Nat =>
            !isInner (size - 1) [(x : Int), (y : Int), (z : Int)]).map fun z : Nat =>
          newPiece (size - 1) (x : Int) (y : Int) (z : Int))).length =
      if (!((x : Int) == 0 || (x : Int) == size - 1))
      then (size.toNat - 2) * 2 + 2 * size.toNat
      else size.toNat * size.toNat := by
  rw [List.length_flatMap]
  have hmap : (List.map
      (List.length ∘ fun y : Nat =>
        ((List.range size.toNat).filter fun z : Nat =>
            !isInner (size - 1) [(x : Int), (y : Int), (z : Int)]).map fun z : Nat =>
          newPiece (size - 1) (x : Int) (y : Int) (z : Int))
      (List.range size.toNat)) =
      (List.range size.toNat).map fun y : Nat =>
        if (!((x : Int) == 0 || (x : Int) == size - 1)) &&
           (!((y : Int) == 0 || (y : Int) == size - 1)) then 2 else size.toNat := by
    apply List.map_congr_left
    intro y hy
    show (((List.range size.toNat).filter fun z : Nat =>
        !isInner (size - 1) [(x : Int), (y : Int), (z : Int)]).map fun z : Nat =>
          newPiece (size - 1) (x : Int) (y : Int) (z : Int)).length = _
    rw [List.length_map, newCube_row_length size hs x y]
  rw [hmap, sum_map_ite]
  by_cases hx : (!((x : Int) == 0 || (x : Int) == size - 1)) = true
  · rw [if_pos hx]
    have hc1 : ((List.range size.toNat).filter fun y : Nat =>
        (!((x : Int) == 0 || (x : Int) == size - 1)) &&
        (!((y : Int) == 0 || (y : Int) == size - 1))) =
        (List.range size.toNat).filter fun y : Nat =>
          !((y : Int) == 0 || (y : Int) == size - 1) := by
      apply List.filter_congr
      intro y hy
      rw [hx, Bool.true_and]
    have hc2 : ((List.range size.toNat).filter fun y : Nat =>
        !((!((x : Int) == 0 || (x : Int) == size - 1)) &&
          (!((y : Int) == 0 || (y : Int) == size - 1)))) =
        (List.range size.toNat).filter fun y : Nat =>
          ((y : Int) == 0 || (y : Int) == size - 1) := by
      apply List.filter_congr
      intro y hy
      rw [hx, Bool.true_and, Bool.not_not]
    rw [hc1, hc2, lenA_int size hs, lenNotA_int size hs]
  · rw [if_neg hx]
    have hx2 : (!((x : Int) == 0 || (x : Int) == size - 1)) = false :=
      Bool.eq_false_iff.mpr hx
    have hc1 : ((List.range size.toNat).filter fun y : Nat =>
        (!((x : Int) == 0 || (x : Int) == size - 1)) &&
        (!((y : Int) == 0 || (y : Int) == size - 1))) = [] := by
      rw [List.filter_congr (fun y hy => by rw [hx2, Bool.false_and])]
      exact List.filter_false _
    have hc2 : ((List.range size.toNat).filter fun y : Nat =>
        !((!((x : Int) == 0 || (x : Int) == size - 1)) &&
          (!((y : Int) == 0 || (y : Int) == size - 1)))) =
        List.range size.toNat := by
      rw [List.filter_congr (fun y hy => by rw [hx2, Bool.false_and, Bool.not_false])]
      exact List.filter_true _
    rw [hc1, hc2, List.length_range]
    simp

/-- The full triple loop of NewCube yields the closed piece count. -/
lemma newCube_length (size : Int) (hs : 2 ≤ size) :
    (NewCube size).pieces.length =
      (size.toNat - 2) * ((size.toNat - 2) * 2 + 2 * size.toNat) +
        2 * (size.toNat * size.toNat) := by
  show (((List.range size.toNat).flatMap fun x : Nat =>
      (List.range size.toNat).flatMap fun y : Nat =>
        ((List.range size.toNat).filter fun z : Nat =>
            !isInner (size - 1) [(x : Int), (y : Int), (z : Int)]).map fun z : Nat =>
          newPiece (size - 1) (x : Int) (y : Int) (z : Int))).length = _
  rw [List.length_flatMap]
  have hmap : (List.map
      (List.length ∘ fun x : Nat =>
        (List.range size.toNat).flatMap fun y : Nat =>
          ((List.range size.toNat).filter fun z : Nat =>
              !isInner (size - 1) [(x : Int), (y : Int), (z : Int)]).map fun z : Nat =>
            newPiece (size - 1) (x : Int) (y : Int) (z : Int))
      (List.range size.toNat)) =
      (List.range size.toNat).map fun x : Nat =>
        if (!((x : Int) == 0 || (x : Int) == size - 1))
        then (size.toNat - 2) * 2 + 2 * size.toNat
        else size.toNat * size.toNat := by
    apply List.map_congr_left
    intro x hx
    exact newCube_mid_length size hs x
  rw [hmap, sum_map_ite, lenA_int size hs]
  have hdn : ((List.range size.toNat).filter fun a : Nat =>
      !!((a : Int) == 0 || (a : Int) == size - 1)) =
      (List.range size.toNat).filter fun a : Nat =>
        ((a : Int) == 0 || (a : Int) == size - 1) :=
    List.filter_congr fun a _ => Bool.not_not _
  rw [hdn, lenNotA_int size hs]

/-- pow with exponent three is the triple product. -/
lemma pow_three (v : Int) : pow v 3 = v * v * v := by
  have h : pow v 3 = ((1 * v) * v) * v := rfl
  rw [h]
  ring

/-- Pieces built by newPiece determine their lattice point: the three
tile coordinates are the three arguments. -/
lemma newPiece_inj {mx a b c a2 b2 c2 : Int}
    (h : newPiece mx a b c = newPiece mx a2 b2 c2) : a = a2 ∧ b = b2 ∧ c = c2 := by
  have hx := congrArg (fun p => p.x.coordinate) h
  have hy := congrArg (fun p => p.y.coordinate) h
  have hz := congrArg (fun p => p.z.coordinate) h
  simp only [newPiece, newTile] at hx hy hz
  exact ⟨hx, hy, hz⟩

/-- A lattice point of the cube grid contributes a piece exactly when it
is not inner, that is when some coordinate touches 0 or size-1. -/
lemma mem_newCube_pieces_iff (size : Int) (x y z : Nat)
    (hx : x < size.toNat) (hy : y < size.toNat) (hz : z < size.toNat) :
    (newPiece (size - 1) (x : Int) (y : Int) (z : Int) ∈ (NewCube size).pieces ↔
      isInner (size - 1) [(x : Int), (y : Int), (z : Int)] = false) := by
  constructor
  · intro hmem
    simp only [NewCube, List.mem_flatMap, List.mem_map, List.mem_filter,
      List.mem_range] at hmem
    obtain ⟨x2, hx2, y2, hy2, z2, ⟨hz2, hfil⟩, heq⟩ := hmem
    obtain ⟨ex, ey, ez⟩ := newPiece_inj heq
    rw [ex, ey, ez] at hfil
    simpa using hfil
  · intro hin
    simp only [NewCube, List.mem_flatMap, List.mem_map, List.mem_filter,
      List.mem_range]
    exact ⟨x, hx, y, hy, z, ⟨hz, by rw [hin]; rfl⟩, rfl⟩

/-- C4 counterexample: a 1-cube holds a single piece, while the closed
formula of the claim evaluates to 2 at size 1, since the Go pow of the
negative base -1 is -1. -/
theorem claim_C4_counterexample :
    ((NewCube 1).pieces.length : Int) ≠ pow 1 3 - pow (1 - 2) 3 := by
  decide

/-- C4 amended: for every size at least 2, NewCube builds exactly
size cubed minus (size-2) cubed pieces, one per shell lattice point (at
least one coordinate equal to 0 or size-1) and none for interior points;
at size 1 the cube has one piece while the formula gives 2. -/
theorem claim_C4_piece_count (size : Int) (hs : 2 ≤ size) :
    ((NewCube size).pieces.length : Int) = pow size 3 - pow (size - 2) 3 ∧
    ∀ x y z : Nat, x < size.toNat → y < size.toNat → z < size.toNat →
      (newPiece (size - 1) (x : Int) (y : Int) (z : Int) ∈ (NewCube size).pieces ↔
        isInner (size - 1) [(x : Int), (y : Int), (z : Int)] = false) := by
  refine ⟨?_, fun x y z hx hy hz => mem_newCube_pieces_iff size x y z hx hy hz⟩
  rw [newCube_length size hs, pow_three, pow_three]
  obtain ⟨m, hm⟩ : ∃ m : Nat, size.toNat = m + 2 := ⟨size.toNat - 2, by omega⟩
  have hsize : size = (m : Int) + 2 := by omega
  rw [hm, hsize]
  simp only [Nat.add_sub_cancel]
  push_cast
  ring

/-- Witness for C4 at the 3-cube, whose 26 pieces match the formula. -/
theorem claim_C4_witness :
    (2 : Int) ≤ 3 ∧ ((NewCube 3).pieces.length : Int) = pow 3 3 - pow (3 - 2) 3 :=
  ⟨by norm_num, (claim_C4_piece_count 3 (by norm_num)).1⟩

/-! ### Claim C6 -/

/-- After a separator has been seen, a run of plain moves accumulates
onto the tail list in order. -/
lemma expandTokens_moves_some (B : List Move) (h t : List Move) (s : SepKind) :
    expandTokens (B.map Token.move) h t (some s) = .ok (h, t ++ B, some s) := by
  induction B generalizing t with
  | nil => simp [expandTokens]
  | cons b bs ih => simp [expandTokens, ih]

/-- Processing the children of a conjugate bracket group made of a move
run, the conjugate separator, and a second move run accumulates the first
run on the head and the second on the tail. -/
lemma expandTokens_moves_conj (A B : List Move) (h t : List Move) :
    expandTokens (A.map Token.move ++ Token.sep SepKind.conjugate :: B.map Token.move) h t none =
      .ok (h ++ A, t ++ B, some SepKind.conjugate) := by
  induction A generalizing h with
  | nil => simp [expandTokens, expandTokens_moves_some]
  | cons a as ih => simp [expandTokens, ih]

/-- C6 counterexample: with the one-move sub-sequences A = B = R, the
group expansion of the conjugate bracket normalizes the assembled
sequence R R R-inverted down to the single move R, while the claimed
concatenation of the separately expanded parts keeps all three moves. -/
theorem claim_C6_counterexample :
    expandGroup [Token.move ⟨0, 'R', false, 1, false⟩] 1 GroupTy.move =
      .ok [⟨0, 'R', false, 1, false⟩] ∧
    Group.Expand ⟨[Token.move ⟨0, 'R', false, 1, false⟩, Token.sep SepKind.conjugate,
                   Token.move ⟨0, 'R', false, 1, false⟩], 1, GroupTy.comm⟩ ≠
      .ok ([⟨0, 'R', false, 1, false⟩] ++ [⟨0, 'R', false, 1, false⟩] ++
           ReverseMoves [⟨0, 'R', false, 1, false⟩]) := by
  constructor
  · simp +decide [expandGroup, expandTokens, NormalizeMoves, normStep]
  · simp +decide [Group.Expand, expandGroup, expandTokens, NormalizeMoves, normStep,
      Move.CombineMove, Move.Normalize, ReverseMoves, reverse]

/-- C6 amended: expanding the conjugate group made of move sub-sequences
A and B equals NormalizeMoves applied to the concatenation of A, B, and
the reverse-inverted A: the reversed head is appended before the single
final normalization pass, which may merge or cancel moves across the
three boundaries, rather than the parts being normalized separately and
concatenated. -/
theorem claim_C6_conjugate_law (A B : List Move) :
    Group.Expand ⟨A.map Token.move ++ Token.sep SepKind.conjugate :: B.map Token.move,
                  1, GroupTy.comm⟩ =
      .ok (NormalizeMoves (A ++ B ++ ReverseMoves A)) := by
  rw [Group.Expand, expandGroup.eq_def]
  simp [expandTokens_moves_conj]

/-! ### Claim C10 -/

/-- C10: whenever ExecuteMove returns the SliceParam error, the cube state
is completely unchanged: the error is detected before any tile coordinate
or color is mutated, so a failing single-move execution is atomic. -/
theorem claim_C10_error_atomic (c : Cube) (m : Move)
    (h : (c.ExecuteMove m).2 = some CubeErr.sliceParam) :
    (c.ExecuteMove m).1 = c := by
  apply executeMove_fst_of_error
  simp [h]

/-- Witness for C10 at a concrete cube and a wide move whose slice count
pushes the layer range below zero. -/
theorem claim_C10_witness :
    (Cube.ExecuteMove (NewCube 3) ⟨5, 'R', true, 1, false⟩).2 = some CubeErr.sliceParam ∧
    (Cube.ExecuteMove (NewCube 3) ⟨5, 'R', true, 1, false⟩).1 = NewCube 3 :=
  ⟨by decide, claim_C10_error_atomic (NewCube 3) ⟨5, 'R', true, 1, false⟩ (by decide)⟩

/-! ### Claim C9 -/

/-- C9: ExecuteMoves applies every move sequentially through ExecuteMove,
folding the updated cube through the list, and never inspects or
propagates per-move errors: when a move fails, the batch continues on the
unchanged cube and executes all later moves. -/
theorem claim_C9_sequential_no_error (c : Cube) (m : Move) (ms : List Move) :
    Cube.ExecuteMoves c [] = c ∧
    Cube.ExecuteMoves c (m :: ms) = Cube.ExecuteMoves (c.ExecuteMove m).1 ms ∧
    ((c.ExecuteMove m).2.isSome = true →
      Cube.ExecuteMoves c (m :: ms) = Cube.ExecuteMoves c ms) := by
  refine ⟨rfl, rfl, fun h => ?_⟩
  show Cube.ExecuteMoves (c.ExecuteMove m).1 ms = Cube.ExecuteMoves c ms
  rw [executeMove_fst_of_error c m h]

/-- Witness for C9: a batch whose first move fails with SliceParam
continues and executes the later move on the unchanged cube. -/
theorem claim_C9_witness :
    ((NewCube 2).ExecuteMove ⟨5, 'R', true, 1, false⟩).2.isSome = true ∧
    Cube.ExecuteMoves (NewCube 2) [⟨5, 'R', true, 1, false⟩, ⟨0, 'R', false, 1, false⟩] =
      Cube.ExecuteMoves (NewCube 2) [⟨0, 'R', false, 1, false⟩] :=
  ⟨by decide,
   (claim_C9_sequential_no_error (NewCube 2) ⟨5, 'R', true, 1, false⟩
     [⟨0, 'R', false, 1, false⟩]).2.2 (by decide)⟩

/-! ### Claim C7 -/

/-- C7 counterexample: a wide middle-slice move whose slice count pushes
the layer range below zero returns the SliceParam error on an even-sized
cube instead of succeeding as a no-op: the slice-range check runs before
the middle-slice special case. -/
theorem claim_C7_counterexample :
    (Cube.ExecuteMove (NewCube 2) ⟨4, 'M', true, 1, false⟩).2 = some CubeErr.sliceParam := by
  decide

/-- C7 amended: for a middle-slice move (face M, E or S) whose wide slice
range stays non-negative, an even-sized cube (odd max, since size is
max+1) yields a successful no-op, and an odd-sized cube turns exactly the
single center layer, index max/2 = (size-1)/2, along the axis of the
move, with the orientation the engine computes; a wide M/E/S move whose
slice count exceeds max+1 instead fails with SliceParam before reaching
the middle-slice case. -/
theorem claim_C7_middle_slice (c : Cube) (m : Move)
    (hop : m.Operator = 'M' ∨ m.Operator = 'E' ∨ m.Operator = 'S')
    (hmax : 0 ≤ c.max)
    (hw : m.Wide = true → m.Slices ≤ c.max + 1) :
    (Int.tmod c.max 2 = 1 → c.ExecuteMove m = (c, none)) ∧
    (Int.tmod c.max 2 = 0 →
      c.ExecuteMove m =
        (c.turn ⟨(if m.isAny ['F', 'B', 'S', 'z'] then Axis.z
                  else if m.isAny ['U', 'D', 'E', 'y'] then Axis.y else Axis.x),
                 Int.tdiv c.max 2, Int.tdiv c.max 2, m.Rotations,
                 (if m.isAny ['R', 'F', 'D', 'E', 'S', 'x', 'z'] then m.Inverted
                  else !m.Inverted)⟩,
         none)) := by
  have hlm : ¬ ((if m.Wide then c.max - (m.Slices - 1) else c.max) < 0) := by
    split
    next hwide => have := hw hwide; omega
    next => omega
  rcases hop with hope | hope | hope <;>
    refine ⟨fun hpar => ?_, fun hpar => ?_⟩ <;>
      simp [Cube.ExecuteMove, Move.isAny, hope, hlm, hpar]

/-- Witness for C7 at the 3-cube and the plain M move, which turns the
single middle x layer. -/
theorem claim_C7_witness :
    Int.tmod (NewCube 3).max 2 = 0 ∧
    (NewCube 3).ExecuteMove ⟨0, 'M', false, 1, false⟩ =
      ((NewCube 3).turn ⟨Axis.x, Int.tdiv (NewCube 3).max 2,
        Int.tdiv (NewCube 3).max 2, 1, true⟩, none) := by
  refine ⟨by decide, ?_⟩
  have h := (claim_C7_middle_slice (NewCube 3) ⟨0, 'M', false, 1, false⟩
    (by decide) (by decide) (by decide)).2 (by decide)
  simpa using h

/-! ### Claim C5 -/

/-- C5 counterexample: for the move with Rotations -3 (whose Go truncated
remainder by 4 is -3), one normalization produces Rotations 3, and a
second normalization reduces that to 1 with Inverted flipped, so
normalizing twice differs from normalizing once. -/
theorem claim_C5_counterexample :
    Move.Normalize (Move.Normalize ⟨0, 'R', false, -3, false⟩) ≠
      Move.Normalize ⟨0, 'R', false, -3, false⟩ := by
  decide

/-- C5 amended: normalization is idempotent for every move whose
Rotations does not leave remainder -3 under the Go truncated modulus by
4, that is for every move except the negative rotation counts of the form
4k+1; those normalize to Rotations 3 once and to Rotations 1 with
Inverted flipped when normalized again. -/
theorem claim_C5_normalize_idempotent (m : Move)
    (h : Int.tmod m.Rotations 4 ≠ -3) :
    (m.Normalize).Normalize = m.Normalize := by
  obtain ⟨hlo, hhi⟩ := tmod_four_bounds m.Rotations
  have hcases : Int.tmod m.Rotations 4 = -2 ∨ Int.tmod m.Rotations 4 = -1 ∨
      Int.tmod m.Rotations 4 = 0 ∨ Int.tmod m.Rotations 4 = 1 ∨
      Int.tmod m.Rotations 4 = 2 ∨ Int.tmod m.Rotations 4 = 3 := by omega
  have e1 : Int.tmod 1 4 = 1 := by decide
  have e2 : Int.tmod 2 4 = 2 := by decide
  by_cases hsw : (m.Slices == 0 && m.Wide) = true <;>
    rcases hcases with hc | hc | hc | hc | hc | hc <;>
      simp [Move.Normalize, hsw, hc, e1, e2] <;> norm_num

/-- Witness for C5 at a concrete move with a positive rotation count. -/
theorem claim_C5_witness :
    Int.tmod (5 : Int) 4 ≠ -3 ∧
    (Move.Normalize (Move.Normalize ⟨0, 'U', false, 5, false⟩) =
      Move.Normalize ⟨0, 'U', false, 5, false⟩) :=
  ⟨by decide, claim_C5_normalize_idempotent ⟨0, 'U', false, 5, false⟩ (by decide)⟩

end GoCubic
